import Mathlib

/-!
Verification of the fetch+resume core of the kickstarter-ai-scraper
repository: a shallow embedding of the rate limiter and retrying JSON
fetch (`api/client.py`), the discovery paginator (`api/client.py`,
`scraper.py`), and the deduplicating JSON-lines store and checkpoint
(`storage/json_store.py`), together with theorems settling the spec's
claims about them.
-/

mutual
/-- Python/JSON values as produced by `json.loads` and passed through the
storage layer: `None`, booleans, integers, strings, lists and dicts.
(Float values never occur in the properties under study, so numbers are
modelled as integers.  Lists and nested dicts are given by the mutually
defined sequence types below so that equality is derivable.) -/
inductive PyVal where
  | none
  | bool (b : Bool)
  | int (n : Int)
  | str (s : String)
  | list (xs : PyValList)
  | dict (kvs : PyValDict)
deriving DecidableEq
/-- A sequence of Python values (a JSON array). -/
inductive PyValList where
  | nil
  | cons (hd : PyVal) (tl : PyValList)
deriving DecidableEq
/-- A sequence of string-keyed entries (a nested JSON object). -/
inductive PyValDict where
  | nil
  | cons (k : String) (v : PyVal) (tl : PyValDict)
deriving DecidableEq
end

/-- Convert an ordinary list of values into a `PyValList`. -/
def PyValList.ofList : List PyVal → PyValList
  | [] => .nil
  | x :: xs => .cons x (PyValList.ofList xs)

/-- Convert a `PyValList` back into an ordinary list of values. -/
def PyValList.toList : PyValList → List PyVal
  | .nil => []
  | .cons x xs => x :: PyValList.toList xs

/-- A top-level JSON object / Python dict, as an association list. -/
abbrev JsonDict := List (String × PyVal)

/-- Python `d.get(key, default)`: the stored value when the key is present,
otherwise the default.  A stored JSON `null` is `PyVal.none`, so (as in
Python) `d.get("id")` on a record whose `id` is `null` and on a record with
no `id` key both yield `PyVal.none` when the default is `PyVal.none`. -/
def pyGet (d : JsonDict) (k : String) (default : PyVal) : PyVal :=
  (d.lookup k).getD default

/-- Python dict assignment `d[k] = v`: replace the value at an existing key,
or append a new entry. -/
def dictSet : JsonDict → String → PyVal → JsonDict
  | [], k, v => [(k, v)]
  | (k0, v0) :: rest, k, v =>
      if k0 = k then (k0, v) :: rest else (k0, v0) :: dictSet rest k v

/-- Python `set.add` on a set modelled as a duplicate-free list: no-op when
the element is present, otherwise append it. -/
def setInsert (x : PyVal) (s : List PyVal) : List PyVal :=
  if x ∈ s then s else s ++ [x]

/-- Python `set(xs)` for a list: fold `setInsert` over the elements. -/
def setOfList (xs : List PyVal) : List PyVal :=
  xs.foldl (fun s x => setInsert x s) []

/-- Python `set(v)`.  The code only ever applies it to list values (the
default `[]` or the stored `completed_terms` list); a non-iterable value
would raise `TypeError`, modelled as `Option.none`.  (Strings and dicts are
also iterable in Python, but those cases never arise here.) -/
def pySetOf : PyVal → Option (List PyVal)
  | .list xs => some (setOfList xs.toList)
  | _ => Option.none

/-! ### JSONStore (`storage/json_store.py`) -/

/-- One line of the append-only JSON-lines file: a line that parses as a
JSON object (`json.loads` succeeds), a corrupt line (`json.loads` raises
`JSONDecodeError`), or a blank line (skipped after `strip()`). -/
inductive LogLine where
  | valid (r : JsonDict)
  | corrupt
  | blank
deriving DecidableEq

/-- State of a `JSONStore`: the persisted log file (as its list of lines)
and the in-memory `_seen_ids` set (as a duplicate-free list). -/
structure JSONStore where
  file : List LogLine
  seen : List PyVal
deriving DecidableEq

/-- One line of the `_load_existing_ids` scan: skip a blank or unparseable
line; for a parsed record take `record.get("id")` and add it to the seen
set when it is not `None`. -/
def loadStep (s : List PyVal) (l : LogLine) : List PyVal :=
  match l with
  | .valid r =>
      let pid := pyGet r "id" .none
      if pid = .none then s else setInsert pid s
  | _ => s

/-- `JSONStore._load_existing_ids`: scan the file line by line. -/
def loadExistingIds (lines : List LogLine) : List PyVal :=
  lines.foldl loadStep []

/-- `JSONStore.__init__` over an existing readable file with the given
lines (a missing file is the empty list; an `OSError` while scanning is
logged and leaves `_seen_ids` partial, a path no claim exercises). -/
def JSONStore.init (lines : List LogLine) : JSONStore :=
  { file := lines, seen := loadExistingIds lines }

/-- `JSONStore.add`: return `false` when `record.get("id")` is already in
`_seen_ids`; otherwise append one serialized line to the file, add the id
to `_seen_ids` when it is not `None`, and return `true`. -/
def JSONStore.add (s : JSONStore) (r : JsonDict) : JSONStore × Bool :=
  let pid := pyGet r "id" .none
  if pid ∈ s.seen then (s, false)
  else
    ({ file := s.file ++ [.valid r],
       seen := if pid = .none then s.seen else setInsert pid s.seen },
     true)

/-- `JSONStore.add_many`: apply `add` to each record in order, counting the
`true` results. -/
def JSONStore.add_many (s : JSONStore) (rs : List JsonDict) : JSONStore × Nat :=
  rs.foldl
    (fun acc r =>
      let p := JSONStore.add acc.1 r
      (p.1, acc.2 + if p.2 then 1 else 0))
    (s, 0)

/-- `JSONStore.load_all`: replay the file in order, keeping the lines that
parse and silently skipping blank or corrupt ones. -/
def load_all (lines : List LogLine) : List JsonDict :=
  lines.filterMap
    (fun l =>
      match l with
      | .valid r => some r
      | _ => Option.none)

/-- `JSONStore.count`: the size of `_seen_ids`. -/
def JSONStore.count (s : JSONStore) : Nat := s.seen.length

/-! ### Checkpoint (`storage/json_store.py`) -/

/-- What construction of a `Checkpoint` finds at its path: no file, a file
whose read raises `OSError`, or readable content that either parses to a
JSON dict or raises `JSONDecodeError` (`Option.none`). -/
inductive CheckpointFile where
  | missing
  | unreadable
  | content (parse : Option JsonDict)

/-- `Checkpoint.__init__`: `_data` is the parsed document when the file
exists, reads, and parses; both `JSONDecodeError` and `OSError` are caught
and leave `_data` as the empty dict, as does a missing file. -/
def Checkpoint.init : CheckpointFile → JsonDict
  | .content (some d) => d
  | _ => []

/-- `Checkpoint.get_completed_terms`: `set(self._data.get("completed_terms", []))`. -/
def get_completed_terms (d : JsonDict) : Option (List PyVal) :=
  pySetOf (pyGet d "completed_terms" (.list .nil))

/-- `Checkpoint.mark_term_done`: read the completed set, add the term, and
rewrite `completed_terms` with the result.  Python serialises the set in
unspecified iteration order; the model fixes insertion order (existing
elements first, the new term appended when absent), which agrees with the
code on the resulting set. -/
def mark_term_done (d : JsonDict) (term : String) : Option JsonDict :=
  (get_completed_terms d).map
    (fun completed =>
      dictSet d "completed_terms" (.list (PyValList.ofList (setInsert (.str term) completed))))

/-! ### RateLimiter (`api/client.py`) -/

/-- State of a `RateLimiter`: `_interval` and `_last`, modelled over the
rationals (timestamps are monotonic-clock readings). -/
structure RateLimiter where
  interval : ℚ
  last : ℚ
deriving DecidableEq

/-- `RateLimiter.__init__`: `self._interval = 1.0 / rps` raises
`ZeroDivisionError` when `rps` is zero, modelled as `Option.none`;
otherwise `_interval = 1 / rps` and `_last = 0.0`. -/
def RateLimiter.make (rps : ℚ) : Option RateLimiter :=
  if rps = 0 then Option.none else some ⟨1 / rps, 0⟩

/-- `RateLimiter.acquire` at monotonic time `now`: compute
`wait = _last + _interval - now`, sleep `wait` when it is positive, then
stamp `_last` with the post-sleep clock (idealised as `now + sleep`).
Returns the new state and the time slept. -/
def RateLimiter.acquire (rl : RateLimiter) (now : ℚ) : RateLimiter × ℚ :=
  let wait := rl.last + rl.interval - now
  let sleep := if 0 < wait then wait else 0
  (⟨rl.interval, now + sleep⟩, sleep)

/-! ### KickstarterClient._request_json (`api/client.py`) -/

/-- An HTTP response body: the raw text (used in error messages) together
with the result of `json.loads` on it (`Option.none` when parsing raises
`JSONDecodeError`). -/
structure HTTPBody where
  text : String
  parsed : Option PyVal
deriving DecidableEq

/-- Outcome of one `_curl_get_async` call: a `(status_code, text)` response,
or a transport-level exception with its message. -/
inductive FetchOutcome where
  | resp (status : Nat) (body : HTTPBody)
  | exn (msg : String)

/-- A raised `KickstarterAPIError`, carrying `status_code` and message. -/
structure KickstarterAPIError where
  status_code : Nat
  message : String
deriving DecidableEq

/-- Result of the retry loop of `_request_json`: the returned JSON value or
the raised `KickstarterAPIError`, with the number of `_curl_get_async`
calls (HTTP attempts) performed. -/
structure LoopResult where
  result : Except KickstarterAPIError PyVal
  attempts : Nat

/-- The `for attempt in range(max_retries)` loop of `_request_json`,
with `fuel` the remaining iterations (so the current iteration is the last
one exactly when `fuel = 0` after the head is consumed, matching the
Python test `attempt == max_retries - 1`).  `fetch` gives the outcome of
the attempt with the given index.  Falling out of the loop raises
`KickstarterAPIError(403, "Max retries exceeded")`. -/
def requestJsonGo (fetch : Nat → FetchOutcome) : Nat → Nat → LoopResult
  | _, 0 => ⟨.error ⟨403, "Max retries exceeded"⟩, 0⟩
  | attempt, fuel + 1 =>
    match fetch attempt with
    | .resp status body =>
        if status = 200 then
          match body.parsed with
          | some d => ⟨.ok d, 1⟩
          | Option.none =>
              let r := requestJsonGo fetch (attempt + 1) fuel
              ⟨r.result, r.attempts + 1⟩
        else if status = 403 then
          let r := requestJsonGo fetch (attempt + 1) fuel
          ⟨r.result, r.attempts + 1⟩
        else if 500 ≤ status then
          let r := requestJsonGo fetch (attempt + 1) fuel
          ⟨r.result, r.attempts + 1⟩
        else ⟨.error ⟨status, body.text.take 200⟩, 1⟩
    | .exn msg =>
        if fuel = 0 then ⟨.error ⟨0, msg⟩, 1⟩
        else
          let r := requestJsonGo fetch (attempt + 1) fuel
          ⟨r.result, r.attempts + 1⟩

/-- A whole `_request_json` call: result, HTTP attempts made, and number of
`RateLimiter.acquire` grants consumed. -/
structure RequestRun where
  result : Except KickstarterAPIError PyVal
  attempts : Nat
  acquires : Nat

/-- `_request_json`: one `await self._rate_limiter.acquire()` before the
loop, then the retry loop over attempts `0, 1, …, max_retries - 1`. -/
def request_json (fetch : Nat → FetchOutcome) (maxRetries : Nat) : RequestRun :=
  let r := requestJsonGo fetch 0 maxRetries
  ⟨r.result, r.attempts, 1⟩

/-! ### DiscoveryPaginator (`api/client.py` discover_all_pages, `scraper.py` _scrape_pages) -/

/-- A parsed discover response, projected onto the fields the pagination
code reads: `data.get("projects", [])`, `data.get("has_more", False)`, and
`data.get("total_hits", …)` (a missing key is `Option.none`; the default
differs between the two call sites and is applied there). -/
structure DiscoverData where
  projects : List JsonDict
  has_more : Bool
  total_hits : Option Int

/-- The `while page <= max_pages` loop of
`KickstarterClient.discover_all_pages`.  `fetch` gives the response for a
page number; `remaining = max_pages + 1 - page` counts the iterations the
loop guard still allows, so `remaining = 0` is `page > max_pages`.
Returns the accumulated `all_projects` and the number of `discover`
fetches issued. -/
def discoverAllPagesGo (fetch : Nat → DiscoverData) :
    List JsonDict → Nat → Nat → List JsonDict × Nat
  | acc, _, 0 => (acc, 0)
  | acc, page, remaining + 1 =>
    let d := fetch page
    if d.projects.isEmpty then (acc, 1)
    else
      let acc1 := acc ++ d.projects
      let total : Int := d.total_hits.getD (acc1.length : Int)
      if total ≤ (acc1.length : Int) then (acc1, 1)
      else
        let r := discoverAllPagesGo fetch acc1 (page + 1) remaining
        (r.1, r.2 + 1)

/-- `KickstarterClient.discover_all_pages`: start from an empty accumulator
at page 1. -/
def discover_all_pages (fetch : Nat → DiscoverData) (maxPages : Nat) :
    List JsonDict × Nat :=
  discoverAllPagesGo fetch [] 1 maxPages

/-- Outcome of one `client.discover` call inside `_scrape_pages`: either it
raises `KickstarterAPIError` or it returns a parsed response. -/
inductive DiscoverResult where
  | fail
  | ok (d : DiscoverData)

/-- Result of `_scrape_pages`: final store, the `added` running count it
returns, and the number of `discover` calls issued. -/
structure ScrapeResult where
  store : JSONStore
  added : Nat
  calls : Nat

/-- The `while page <= max_pages` loop of `_scrape_pages`.  `fetch` gives
the outcome of the n-th `discover` call of this key (a failed call is
retried on the same page, so calls are indexed by call count `callIdx`,
not by page).  On failure `consecutive_failures` increments and the loop
breaks when it reaches 3; on success it resets to 0; an empty `projects`
list or a falsy `has_more` breaks; otherwise the page advances.  The loop
always terminates in at most `3 * max_pages` calls; `fuel` bounds the
iterations and all theorems supply adequate fuel. -/
def scrapePagesGo (fetch : Nat → DiscoverResult) (maxPages : Nat) :
    Nat → JSONStore → Nat → Nat → Nat → Nat → ScrapeResult
  | 0, store, added, _, _, callIdx => ⟨store, added, callIdx⟩
  | fuel + 1, store, added, page, failures, callIdx =>
    if maxPages < page then ⟨store, added, callIdx⟩
    else
      match fetch callIdx with
      | .fail =>
          if 3 ≤ failures + 1 then ⟨store, added, callIdx + 1⟩
          else scrapePagesGo fetch maxPages fuel store added page (failures + 1) (callIdx + 1)
      | .ok d =>
          if d.projects.isEmpty then ⟨store, added, callIdx + 1⟩
          else
            let p := store.add_many d.projects
            if d.has_more then
              scrapePagesGo fetch maxPages fuel p.1 (added + p.2) (page + 1) 0 (callIdx + 1)
            else ⟨p.1, added + p.2, callIdx + 1⟩

/-- `_scrape_pages`: page 1, zero failures, zero added. -/
def scrape_pages (fetch : Nat → DiscoverResult) (store : JSONStore)
    (maxPages fuel : Nat) : ScrapeResult :=
  scrapePagesGo fetch maxPages fuel store 0 1 0 0

/-! ### run_scrape (`scraper.py`) -/

/-- Result of `run_scrape`'s discovery loop: final checkpoint `_data`,
final store, and the number of `discover` calls issued for each of the two
search keys. -/
structure RunResult where
  checkpoint : JsonDict
  store : JSONStore
  liveCalls : Nat
  lateCalls : Nat

/-- One iteration of `run_scrape`'s `for state in ("live", "late")` loop:
build `key = "AI|" + state`; skip when `key` is in the completed set
snapshot; otherwise run `_scrape_pages` (with its default
`max_pages = 200`) and then `checkpoint.mark_term_done(key)`.
`Option.none` models `mark_term_done` raising. -/
def runScrapeState (fetchFor : String → Nat → DiscoverResult)
    (completed : List PyVal) (cp : JsonDict) (store : JSONStore)
    (state : String) (fuel : Nat) : Option (JsonDict × JSONStore × Nat) :=
  let key := "AI|" ++ state
  if PyVal.str key ∈ completed then some (cp, store, 0)
  else
    let r := scrape_pages (fetchFor state) store 200 fuel
    (mark_term_done cp key).map (fun cp1 => (cp1, r.store, r.calls))

/-- The discovery phase of `run_scrape`: read the completed-terms snapshot
once, then handle state `"live"` and then state `"late"`.  `fetchFor`
gives, per state, the outcome of each `discover` call for that key. -/
def run_scrape (fetchFor : String → Nat → DiscoverResult) (cp0 : JsonDict)
    (store0 : JSONStore) (fuel : Nat) : Option RunResult :=
  match get_completed_terms cp0 with
  | Option.none => Option.none
  | some completed =>
    match runScrapeState fetchFor completed cp0 store0 "live" fuel with
    | Option.none => Option.none
    | some (cp1, s1, c1) =>
      match runScrapeState fetchFor completed cp1 s1 "late" fuel with
      | Option.none => Option.none
      | some (cp2, s2, c2) => some ⟨cp2, s2, c1, c2⟩

/-! ### Concrete scenarios used by the claims -/

/-- Build a store by calling `add` on each record in order (the way the
discovery phase fills the store, one record at a time). -/
def addAll (s : JSONStore) (rs : List JsonDict) : JSONStore :=
  rs.foldl (fun acc r => (JSONStore.add acc r).1) s

/-- The record id of a dict, as `add` and `_load_existing_ids` read it. -/
def idOf (r : JsonDict) : PyVal := pyGet r "id" .none

/-- A discovery source for which every page fetch fails with
`KickstarterAPIError`, for both search keys. -/
def allFailFetch (_ : String) (_ : Nat) : DiscoverResult := .fail

/-- A fake search source reporting `total_hits = 45` and serving items in
pages of 20: pages 1 and 2 hold 20 records each, page 3 holds 5, and any
later page would serve 20 further records (so a 4th fetch would be
observable). -/
def totalHits45Page (p : Nat) : List JsonDict :=
  if p = 1 then (List.range 20).map (fun k => [("id", PyVal.int (Int.ofNat k))])
  else if p = 2 then (List.range 20).map (fun k => [("id", PyVal.int (Int.ofNat (20 + k)))])
  else if p = 3 then (List.range 5).map (fun k => [("id", PyVal.int (Int.ofNat (40 + k)))])
  else (List.range 20).map (fun k => [("id", PyVal.int (Int.ofNat (100 * p + k)))])

/-- The fake source of `totalHits45Page` as a discover oracle. -/
def totalHits45Fetch (p : Nat) : DiscoverData := ⟨totalHits45Page p, true, some 45⟩

/-- A JSON fetch source that returns 403 on the first attempt and a
parseable 200 response on every later attempt. -/
def oneBlockThenOkFetch (i : Nat) : FetchOutcome :=
  if i = 0 then .resp 403 ⟨"denied", Option.none⟩
  else .resp 200 ⟨"ok", some (PyVal.dict PyValDict.nil)⟩

/-- A JSON fetch source that returns HTTP 500 on every attempt. -/
def always500Fetch (_ : Nat) : FetchOutcome := .resp 500 ⟨"oops", Option.none⟩

/-- The retryable response outcomes named by the spec's exhaustion row:
HTTP 403, HTTP 500 and above, or HTTP 200 whose body fails to parse. -/
def retryableResponse : FetchOutcome → Prop
  | .resp status body => status = 403 ∨ 500 ≤ status ∨ (status = 200 ∧ body.parsed = Option.none)
  | .exn _ => False

/-! ### Supporting lemmas: the Python-set model -/

theorem setInsert_of_mem {x : PyVal} {s : List PyVal} (h : x ∈ s) :
    setInsert x s = s := by
  simp [setInsert, h]

theorem setInsert_of_not_mem {x : PyVal} {s : List PyVal} (h : x ∉ s) :
    setInsert x s = s ++ [x] := by
  simp [setInsert, h]

theorem mem_setInsert_iff {y x : PyVal} {s : List PyVal} :
    y ∈ setInsert x s ↔ y ∈ s ∨ y = x := by
  by_cases h : x ∈ s
  · rw [setInsert_of_mem h]
    constructor
    · exact Or.inl
    · rintro (hy | rfl)
      · exact hy
      · exact h
  · rw [setInsert_of_not_mem h]
    simp

theorem mem_setInsert_self (x : PyVal) (s : List PyVal) : x ∈ setInsert x s :=
  mem_setInsert_iff.mpr (Or.inr rfl)

theorem mem_setInsert_of_mem {y : PyVal} (x : PyVal) {s : List PyVal}
    (h : y ∈ s) : y ∈ setInsert x s :=
  mem_setInsert_iff.mpr (Or.inl h)

theorem setInsert_nodup {x : PyVal} {s : List PyVal} (h : s.Nodup) :
    (setInsert x s).Nodup := by
  by_cases hx : x ∈ s
  · rwa [setInsert_of_mem hx]
  · rw [setInsert_of_not_mem hx]
    rw [List.nodup_append]
    refine ⟨h, List.nodup_singleton x, ?_⟩
    intro a ha hb
    simp only [List.mem_singleton] at hb
    subst hb
    exact hx ha

theorem length_setInsert_of_not_mem {x : PyVal} {s : List PyVal} (h : x ∉ s) :
    (setInsert x s).length = s.length + 1 := by
  rw [setInsert_of_not_mem h]
  simp

theorem setFold_mem (xs : List PyVal) (acc : List PyVal) (y : PyVal) :
    y ∈ xs.foldl (fun s x => setInsert x s) acc ↔ y ∈ acc ∨ y ∈ xs := by
  induction xs generalizing acc with
  | nil => simp
  | cons x xs ih =>
      rw [List.foldl_cons, ih]
      rw [mem_setInsert_iff]
      simp
      tauto

theorem setFold_nodup (xs : List PyVal) (acc : List PyVal) (h : acc.Nodup) :
    (xs.foldl (fun s x => setInsert x s) acc).Nodup := by
  induction xs generalizing acc with
  | nil => simpa
  | cons x xs ih =>
      rw [List.foldl_cons]
      exact ih _ (setInsert_nodup h)

theorem setFold_of_fresh (xs : List PyVal) (acc : List PyVal)
    (hfresh : ∀ x ∈ xs, x ∉ acc) (hnodup : xs.Nodup) :
    xs.foldl (fun s x => setInsert x s) acc = acc ++ xs := by
  induction xs generalizing acc with
  | nil => simp
  | cons x xs ih =>
      rw [List.foldl_cons]
      rw [setInsert_of_not_mem (hfresh x (by simp))]
      rw [ih (acc ++ [x]) ?_ (List.Nodup.of_cons hnodup)]
      · simp
      · intro x' hx'
        simp only [List.mem_append, List.mem_singleton]
        rintro (h1 | rfl)
        · exact hfresh x' (by simp [hx']) h1
        · exact (List.nodup_cons.mp hnodup).1 hx'

theorem setOfList_of_nodup {xs : List PyVal} (h : xs.Nodup) :
    setOfList xs = xs := by
  rw [setOfList, setFold_of_fresh xs [] (by simp) h]
  simp

theorem setOfList_nodup (xs : List PyVal) : (setOfList xs).Nodup :=
  setFold_nodup xs [] List.nodup_nil

theorem mem_setOfList {y : PyVal} {xs : List PyVal} :
    y ∈ setOfList xs ↔ y ∈ xs := by
  rw [setOfList, setFold_mem]
  simp

/-! ### Supporting lemmas: dicts and the checkpoint -/

theorem toList_ofList (xs : List PyVal) :
    (PyValList.ofList xs).toList = xs := by
  induction xs with
  | nil => rfl
  | cons x xs ih => simp [PyValList.ofList, PyValList.toList, ih]

theorem pyGet_dictSet_self (d : JsonDict) (k : String) (v dflt : PyVal) :
    pyGet (dictSet d k v) k dflt = v := by
  induction d with
  | nil => simp [dictSet, pyGet, List.lookup]
  | cons e d ih =>
      obtain ⟨k0, v0⟩ := e
      by_cases h : k0 = k
      · simp [dictSet, h, pyGet, List.lookup]
      · simp only [dictSet, if_neg h]
        rw [pyGet, List.lookup]
        have : (k == k0) = false := by
          simp [BEq.beq]
          exact fun hk => h hk.symm
        rw [this]
        exact ih

theorem get_completed_terms_nodup {d : JsonDict} {c : List PyVal}
    (h : get_completed_terms d = some c) : c.Nodup := by
  rw [get_completed_terms] at h
  cases hv : pyGet d "completed_terms" (.list .nil) with
  | list xs =>
      rw [hv, pySetOf] at h
      obtain rfl : setOfList xs.toList = c := by simpa using h
      exact setOfList_nodup _
  | none => rw [hv] at h; simp [pySetOf] at h
  | bool b => rw [hv] at h; simp [pySetOf] at h
  | int n => rw [hv] at h; simp [pySetOf] at h
  | str s => rw [hv] at h; simp [pySetOf] at h
  | dict kvs => rw [hv] at h; simp [pySetOf] at h

theorem mark_term_done_eq {d : JsonDict} {c : List PyVal} (t : String)
    (h : get_completed_terms d = some c) :
    mark_term_done d t =
      some (dictSet d "completed_terms"
        (.list (PyValList.ofList (setInsert (.str t) c)))) := by
  rw [mark_term_done, h]
  rfl

theorem get_completed_terms_dictSet (d : JsonDict) (l : List PyVal)
    (hl : l.Nodup) :
    get_completed_terms (dictSet d "completed_terms" (.list (PyValList.ofList l)))
      = some l := by
  rw [get_completed_terms, pyGet_dictSet_self, pySetOf, toList_ofList,
    setOfList_of_nodup hl]

/-! ### Supporting lemmas: the store on fresh integer-id records -/

theorem add_fresh {s : JSONStore} {r : JsonDict}
    (hne : idOf r ≠ .none) (hfresh : idOf r ∉ s.seen) :
    JSONStore.add s r =
      (⟨s.file ++ [.valid r], s.seen ++ [idOf r]⟩, true) := by
  rw [JSONStore.add]
  simp only [idOf] at hne hfresh
  rw [if_neg hfresh, if_neg hne, setInsert_of_not_mem hfresh]
  simp [idOf]

theorem addAll_fresh (rs : List JsonDict) (s : JSONStore)
    (hint : ∀ r ∈ rs, idOf r ≠ .none)
    (hnodup : (rs.map idOf).Nodup)
    (hfresh : ∀ r ∈ rs, idOf r ∉ s.seen) :
    addAll s rs = ⟨s.file ++ rs.map LogLine.valid, s.seen ++ rs.map idOf⟩ := by
  induction rs generalizing s with
  | nil => simp [addAll]
  | cons r rs ih =>
      rw [addAll, List.foldl_cons]
      rw [add_fresh (hint r (by simp)) (hfresh r (by simp))]
      have step := ih ⟨s.file ++ [.valid r], s.seen ++ [idOf r]⟩
        (fun x hx => hint x (by simp [hx]))
        (by simpa using (List.nodup_cons.mp (by simpa using hnodup)).2)
        ?_
      · rw [addAll] at step
        rw [step]
        simp
      · intro x hx
        simp only [List.mem_append, List.mem_singleton]
        rintro (h1 | h2)
        · exact hfresh x (by simp [hx]) h1
        · have hhead : idOf r ∉ rs.map idOf :=
            (List.nodup_cons.mp (by simpa using hnodup)).1
          exact hhead (h2 ▸ List.mem_map_of_mem idOf hx)

theorem loadFold_fresh {rs : List JsonDict} {acc : List PyVal}
    (hint : ∀ r ∈ rs, idOf r ≠ .none)
    (hnodup : (rs.map idOf).Nodup)
    (hfresh : ∀ r ∈ rs, idOf r ∉ acc) :
    (rs.map LogLine.valid).foldl loadStep acc = acc ++ rs.map idOf := by
  induction rs generalizing acc with
  | nil => simp
  | cons r rs ih =>
      rw [List.map_cons, List.foldl_cons]
      have hstep : loadStep acc (.valid r) = acc ++ [idOf r] := by
        rw [loadStep]
        simp only [idOf] at hint ⊢
        rw [if_neg (hint r (by simp)), setInsert_of_not_mem]
        simpa [idOf] using hfresh r (by simp)
      rw [hstep]
      rw [ih (fun x hx => hint x (by simp [hx]))
        (by simpa using (List.nodup_cons.mp (by simpa using hnodup)).2) ?_]
      · simp
      · intro x hx
        simp only [List.mem_append, List.mem_singleton]
        rintro (h1 | h2)
        · exact hfresh x (by simp [hx]) h1
        · have hhead : idOf r ∉ rs.map idOf :=
            (List.nodup_cons.mp (by simpa using hnodup)).1
          exact hhead (h2 ▸ List.mem_map_of_mem idOf hx)

theorem foldl_loadStep_corrupt (lines : List LogLine) (acc : List PyVal) :
    (lines ++ [LogLine.corrupt]).foldl loadStep acc = lines.foldl loadStep acc := by
  rw [List.foldl_append]
  rfl

theorem load_all_valid_corrupt (rs : List JsonDict) :
    load_all (rs.map LogLine.valid ++ [LogLine.corrupt]) = rs := by
  induction rs with
  | nil => rfl
  | cons r rs ih => simpa [load_all, List.filterMap_cons] using ih

theorem none_not_mem_setInsert {x : PyVal} {s : List PyVal}
    (hx : x ≠ .none) (hs : PyVal.none ∉ s) : PyVal.none ∉ setInsert x s := by
  rw [mem_setInsert_iff]
  rintro (h | h)
  · exact hs h
  · exact hx h.symm

theorem none_not_mem_loadExistingIds (lines : List LogLine) :
    PyVal.none ∉ loadExistingIds lines := by
  rw [loadExistingIds]
  suffices h : ∀ acc : List PyVal, PyVal.none ∉ acc →
      PyVal.none ∉ lines.foldl loadStep acc from h [] (by simp)
  induction lines with
  | nil => intro acc hacc; simpa using hacc
  | cons l lines ih =>
      intro acc hacc
      rw [List.foldl_cons]
      refine ih _ ?_
      cases l with
      | valid r =>
          rw [loadStep]
          by_cases hid : pyGet r "id" .none = .none
          · simpa [hid] using hacc
          · simpa [hid] using none_not_mem_setInsert hid hacc
      | corrupt => simpa [loadStep] using hacc
      | blank => simpa [loadStep] using hacc

theorem none_not_mem_add_seen {s : JSONStore} (r : JsonDict)
    (h : PyVal.none ∉ s.seen) : PyVal.none ∉ (JSONStore.add s r).1.seen := by
  rw [JSONStore.add]
  by_cases hmem : pyGet r "id" .none ∈ s.seen
  · simpa [hmem] using h
  · by_cases hid : pyGet r "id" .none = .none
    · have hmem2 : PyVal.none ∉ s.seen := hid ▸ hmem
      simp [hmem2, hid]
    · simpa [hmem, hid] using none_not_mem_setInsert hid h

/-! ### Supporting lemmas: the retry loop -/

theorem requestJsonGo_retryable (fetch : Nat → FetchOutcome)
    (h : ∀ i, retryableResponse (fetch i)) :
    ∀ fuel attempt, requestJsonGo fetch attempt fuel =
      ⟨.error ⟨403, "Max retries exceeded"⟩, fuel⟩ := by
  intro fuel
  induction fuel with
  | zero => intro attempt; rfl
  | succ fuel ih =>
      intro attempt
      have hr := h attempt
      cases hfetch : fetch attempt with
      | exn msg => rw [hfetch] at hr; exact absurd hr (by simp [retryableResponse])
      | resp status body =>
          rw [hfetch] at hr
          rw [requestJsonGo, hfetch]
          rcases hr with h403 | h500 | ⟨h200, hparse⟩
          · subst h403
            rw [ih (attempt + 1)]
            simp
          · have hne200 : ¬(status = 200) := by omega
            have hne403 : ¬(status = 403) := by omega
            rw [ih (attempt + 1)]
            simp [hne200, hne403, h500]
          · subst h200
            rw [ih (attempt + 1)]
            simp [hparse]

/-! ### Claim theorems -/

/-- C2 (counterexample): an execution of `_request_json` that makes 2 HTTP
attempts (a 403 on the first, success on the second) consumes only 1 rate
limiter grant, not 2 — `acquire()` is called before the retry loop, not
once per attempt. -/
theorem request_json_acquire_per_attempt_cex :
    (request_json oneBlockThenOkFetch 3).attempts = 2 ∧
    (request_json oneBlockThenOkFetch 3).result = .ok (PyVal.dict PyValDict.nil) ∧
    (request_json oneBlockThenOkFetch 3).acquires = 1 ∧
    (request_json oneBlockThenOkFetch 3).acquires ≠ (request_json oneBlockThenOkFetch 3).attempts :=
  ⟨rfl, rfl, rfl, by decide⟩

/-- C2 (amended): every execution of `_request_json` invokes the rate
limiter's `acquire()` exactly once — before the first attempt — regardless
of how many HTTP attempts (retries) it makes. -/
theorem request_json_acquires_once (fetch : Nat → FetchOutcome) (m : Nat) :
    (request_json fetch m).acquires = 1 := rfl

/-- C3: for every `max_retries ≥ 1`, a fetch against a source answering
HTTP 403 on every attempt makes exactly `max_retries` attempts, never
returns success, and raises `KickstarterAPIError` (status 403). -/
theorem request_json_retry_ceiling_403 (fetch : Nat → FetchOutcome) (m : Nat)
    (_hm : 1 ≤ m) (h403 : ∀ i, ∃ b, fetch i = FetchOutcome.resp 403 b) :
    (request_json fetch m).attempts = m ∧
    (request_json fetch m).result = .error ⟨403, "Max retries exceeded"⟩ ∧
    ∀ d, (request_json fetch m).result ≠ .ok d := by
  have hr : ∀ i, retryableResponse (fetch i) := by
    intro i
    obtain ⟨b, hb⟩ := h403 i
    rw [hb]
    exact Or.inl rfl
  have hgo := requestJsonGo_retryable fetch hr m 0
  refine ⟨?_, ?_, ?_⟩ <;> simp [request_json, hgo]

/-- Witness for C3 at `max_retries = 3` and a concrete always-403 source. -/
theorem request_json_retry_ceiling_403_witness :
    (request_json (fun _ => FetchOutcome.resp 403 ⟨"denied", Option.none⟩) 3).attempts = 3 ∧
    (request_json (fun _ => FetchOutcome.resp 403 ⟨"denied", Option.none⟩) 3).result
      = .error ⟨403, "Max retries exceeded"⟩ ∧
    ∀ d, (request_json (fun _ => FetchOutcome.resp 403 ⟨"denied", Option.none⟩) 3).result ≠ .ok d :=
  request_json_retry_ceiling_403 (fun _ => FetchOutcome.resp 403 ⟨"denied", Option.none⟩) 3
    (by decide) (fun _ => ⟨⟨"denied", Option.none⟩, rfl⟩)

/-- C4 (counterexample): a fetch whose 2 attempts both observe HTTP 500
exhausts its retries, yet the raised error carries status 403 (hard-coded
`KickstarterAPIError(403, "Max retries exceeded")`), not the 500 observed
on the last attempt. -/
theorem request_json_last_status_cex :
    (request_json always500Fetch 2).result = .error ⟨403, "Max retries exceeded"⟩ ∧
    (request_json always500Fetch 2).attempts = 2 ∧
    (403 : Nat) ≠ 500 :=
  ⟨rfl, rfl, by decide⟩

/-- C4 (amended): whenever every attempt's outcome is retryable (403, ≥500,
or 200 with an unparseable body), exhausting all `max_retries` attempts
raises the fixed error `KickstarterAPIError(403, "Max retries exceeded")`,
regardless of the statuses observed. -/
theorem request_json_exhausted_error_is_403 (fetch : Nat → FetchOutcome) (m : Nat)
    (h : ∀ i, retryableResponse (fetch i)) :
    (request_json fetch m).result = .error ⟨403, "Max retries exceeded"⟩ ∧
    (request_json fetch m).attempts = m := by
  have hgo := requestJsonGo_retryable fetch h m 0
  constructor <;> simp [request_json, hgo]

/-- Witness for the amended C4 at the concrete always-500 source. -/
theorem request_json_exhausted_error_is_403_witness :
    (request_json always500Fetch 2).result = .error ⟨403, "Max retries exceeded"⟩ ∧
    (request_json always500Fetch 2).attempts = 2 :=
  request_json_exhausted_error_is_403 always500Fetch 2
    (fun _ => Or.inr (Or.inl (by decide)))

/-- C5: adding a record with a fresh integer id twice returns `true` then
`false`, appends exactly one line to the log, and increases `count` by
exactly 1. -/
theorem jsonStore_dedup_idempotent (s : JSONStore) (r : JsonDict) (i : Int)
    (hid : pyGet r "id" PyVal.none = PyVal.int i)
    (hnew : PyVal.int i ∉ s.seen) :
    (s.add r).2 = true ∧
    ((s.add r).1.add r).2 = false ∧
    (s.add r).1.file = s.file ++ [LogLine.valid r] ∧
    ((s.add r).1.add r).1.file = (s.add r).1.file ∧
    ((s.add r).1.add r).1.count = s.count + 1 := by
  have hne : idOf r ≠ PyVal.none := by rw [idOf, hid]; simp
  have hfresh : idOf r ∉ s.seen := by rw [idOf, hid]; exact hnew
  have h1 := add_fresh hne hfresh
  have hmem : pyGet r "id" PyVal.none ∈ s.seen ++ [idOf r] := by
    rw [idOf]
    simp
  have h2 : JSONStore.add ⟨s.file ++ [LogLine.valid r], s.seen ++ [idOf r]⟩ r
      = (⟨s.file ++ [LogLine.valid r], s.seen ++ [idOf r]⟩, false) := by
    rw [JSONStore.add, if_pos hmem]
  rw [h1]
  refine ⟨rfl, ?_, rfl, ?_, ?_⟩
  · rw [h2]
  · rw [h2]
  · rw [h2]
    simp [JSONStore.count]

/-- Witness for C5 on the empty store and the record with id 1. -/
theorem jsonStore_dedup_idempotent_witness :
    ((JSONStore.init []).add [("id", PyVal.int 1)]).2 = true ∧
    (((JSONStore.init []).add [("id", PyVal.int 1)]).1.add [("id", PyVal.int 1)]).2 = false ∧
    ((JSONStore.init []).add [("id", PyVal.int 1)]).1.file
      = (JSONStore.init []).file ++ [LogLine.valid [("id", PyVal.int 1)]] ∧
    (((JSONStore.init []).add [("id", PyVal.int 1)]).1.add [("id", PyVal.int 1)]).1.file
      = ((JSONStore.init []).add [("id", PyVal.int 1)]).1.file ∧
    (((JSONStore.init []).add [("id", PyVal.int 1)]).1.add [("id", PyVal.int 1)]).1.count
      = (JSONStore.init []).count + 1 :=
  jsonStore_dedup_idempotent (JSONStore.init []) [("id", PyVal.int 1)] 1 rfl (by decide)

/-- C6: a store built by adding `n` records with distinct integer ids
persists exactly those records in order; a fresh store over the same log,
even with a corrupt trailing line appended out-of-band, reports
`count = n`, and `load_all` returns all `n` records in the original append
order, skipping the corrupt line. -/
theorem jsonStore_resume_correctness (rs : List JsonDict)
    (hint : ∀ r ∈ rs, ∃ i : Int, idOf r = PyVal.int i)
    (hnodup : (rs.map idOf).Nodup) :
    (addAll (JSONStore.init []) rs).file = rs.map LogLine.valid ∧
    (JSONStore.init ((addAll (JSONStore.init []) rs).file ++ [LogLine.corrupt])).count = rs.length ∧
    load_all ((addAll (JSONStore.init []) rs).file ++ [LogLine.corrupt]) = rs := by
  have hne : ∀ r ∈ rs, idOf r ≠ PyVal.none := by
    intro r hr
    obtain ⟨i, hi⟩ := hint r hr
    rw [hi]
    simp
  have hfile : (addAll (JSONStore.init []) rs).file = rs.map LogLine.valid := by
    rw [addAll_fresh rs (JSONStore.init []) hne hnodup
      (by intro r hr; simp [JSONStore.init, loadExistingIds])]
    simp [JSONStore.init]
  refine ⟨hfile, ?_, ?_⟩
  · rw [hfile]
    have hload : loadExistingIds (rs.map LogLine.valid ++ [LogLine.corrupt])
        = rs.map idOf := by
      rw [loadExistingIds, foldl_loadStep_corrupt]
      rw [@loadFold_fresh rs [] hne hnodup (by simp)]
      simp
    simp [JSONStore.init, JSONStore.count, hload]
  · rw [hfile]
    exact load_all_valid_corrupt rs

/-- Witness for C6 on two records with ids 1 and 2. -/
theorem jsonStore_resume_correctness_witness :
    (addAll (JSONStore.init []) [[("id", PyVal.int 1)], [("id", PyVal.int 2)]]).file
      = [[("id", PyVal.int 1)], [("id", PyVal.int 2)]].map LogLine.valid ∧
    (JSONStore.init ((addAll (JSONStore.init []) [[("id", PyVal.int 1)], [("id", PyVal.int 2)]]).file
        ++ [LogLine.corrupt])).count = 2 ∧
    load_all ((addAll (JSONStore.init []) [[("id", PyVal.int 1)], [("id", PyVal.int 2)]]).file
        ++ [LogLine.corrupt]) = [[("id", PyVal.int 1)], [("id", PyVal.int 2)]] := by
  have h := jsonStore_resume_correctness [[("id", PyVal.int 1)], [("id", PyVal.int 2)]]
    (by intro r hr
        simp only [List.mem_cons, List.not_mem_nil, or_false] at hr
        rcases hr with rfl | rfl
        · exact ⟨1, rfl⟩
        · exact ⟨2, rfl⟩)
    (by decide)
  simpa using h

/-- C9: a record whose `id` is missing or null is appended on every `add`
call (never deduplicated), `count` stays unchanged, and so `count` falls
strictly below the number of persisted lines. -/
theorem jsonStore_add_no_id_never_deduped (s : JSONStore) (r : JsonDict)
    (hid : pyGet r "id" PyVal.none = PyVal.none)
    (hseen : PyVal.none ∉ s.seen) :
    (s.add r).2 = true ∧
    (s.add r).1.file = s.file ++ [LogLine.valid r] ∧
    (s.add r).1.seen = s.seen ∧
    (s.add r).1.count = s.count ∧
    ((s.add r).1.add r).2 = true ∧
    (s.count ≤ s.file.length → (s.add r).1.count < (s.add r).1.file.length) := by
  have hmem : pyGet r "id" PyVal.none ∉ s.seen := by rw [hid]; exact hseen
  have h1 : JSONStore.add s r = (⟨s.file ++ [LogLine.valid r], s.seen⟩, true) := by
    rw [JSONStore.add, if_neg hmem, if_pos hid]
  have h2 : JSONStore.add ⟨s.file ++ [LogLine.valid r], s.seen⟩ r
      = (⟨(s.file ++ [LogLine.valid r]) ++ [LogLine.valid r], s.seen⟩, true) := by
    rw [JSONStore.add, if_neg hmem, if_pos hid]
  rw [h1]
  refine ⟨rfl, rfl, rfl, rfl, ?_, ?_⟩
  · rw [h2]
  · intro hle
    simp only [JSONStore.count] at hle ⊢
    simp only [List.length_append, List.length_singleton]
    omega

/-- Witness for C9 on the empty store and a record with no `id` key. -/
theorem jsonStore_add_no_id_never_deduped_witness :
    ((JSONStore.init []).add [("name", PyVal.str "x")]).2 = true ∧
    ((JSONStore.init []).add [("name", PyVal.str "x")]).1.file
      = (JSONStore.init []).file ++ [LogLine.valid [("name", PyVal.str "x")]] ∧
    ((JSONStore.init []).add [("name", PyVal.str "x")]).1.seen = (JSONStore.init []).seen ∧
    ((JSONStore.init []).add [("name", PyVal.str "x")]).1.count = (JSONStore.init []).count ∧
    (((JSONStore.init []).add [("name", PyVal.str "x")]).1.add [("name", PyVal.str "x")]).2 = true ∧
    ((JSONStore.init []).count ≤ (JSONStore.init []).file.length →
      ((JSONStore.init []).add [("name", PyVal.str "x")]).1.count
        < ((JSONStore.init []).add [("name", PyVal.str "x")]).1.file.length) :=
  jsonStore_add_no_id_never_deduped (JSONStore.init []) [("name", PyVal.str "x")]
    rfl (by decide)

/-- C10: constructing a `Checkpoint` over a file that exists but cannot be
read, or whose content does not parse as JSON, succeeds with empty state:
`completed_keys` is the empty set and every `get(key)` returns the
default. -/
theorem checkpoint_init_tolerates_bad_file (f : CheckpointFile)
    (h : f = CheckpointFile.unreadable ∨ f = CheckpointFile.content Option.none) :
    Checkpoint.init f = [] ∧
    get_completed_terms (Checkpoint.init f) = some [] ∧
    ∀ (k : String) (dflt : PyVal), pyGet (Checkpoint.init f) k dflt = dflt := by
  rcases h with rfl | rfl <;>
    exact ⟨rfl, rfl, fun k dflt => rfl⟩

/-- Witness for C10 at a file whose content fails to parse. -/
theorem checkpoint_init_tolerates_bad_file_witness :
    Checkpoint.init (CheckpointFile.content Option.none) = [] ∧
    get_completed_terms (Checkpoint.init (CheckpointFile.content Option.none)) = some [] ∧
    ∀ (k : String) (dflt : PyVal),
      pyGet (Checkpoint.init (CheckpointFile.content Option.none)) k dflt = dflt :=
  checkpoint_init_tolerates_bad_file (CheckpointFile.content Option.none) (Or.inr rfl)

/-- C7: against the fake source reporting `total_hits = 45` and serving
pages of 20, 20, and 5 items, `discover_all_pages` returns all 45 items in
order after exactly 3 page fetches and issues no 4th fetch, because the
running total reaching the reported total stops the loop. -/
theorem discover_all_pages_total_hits_termination :
    (discover_all_pages totalHits45Fetch 100).1
      = (List.range 45).map (fun k => [("id", PyVal.int (Int.ofNat k))]) ∧
    (discover_all_pages totalHits45Fetch 100).1.length = 45 ∧
    (discover_all_pages totalHits45Fetch 100).2 = 3 := by
  refine ⟨by decide, by decide, by decide⟩

/-- C8 (counterexample): constructing a `RateLimiter` with `rps = 0` (a
non-positive rate) does not succeed — `1.0 / rps` raises
`ZeroDivisionError`. -/
theorem rateLimiter_zero_rps_cex :
    RateLimiter.make 0 = Option.none ∧ (0 : ℚ) ≤ 0 :=
  ⟨by simp [RateLimiter.make], le_refl 0⟩

/-- C8 (amended): for every strictly negative rate, construction succeeds
and every `acquire()` on a state with that interval grants immediately
(zero sleep) whenever the clock has not gone backwards; construction with
rate exactly 0 raises. -/
theorem rateLimiter_negative_rps_no_wait (rps : ℚ) (h : rps < 0) :
    RateLimiter.make rps = some ⟨1 / rps, 0⟩ ∧
    ∀ rl : RateLimiter, rl.interval = 1 / rps → ∀ now : ℚ, rl.last ≤ now →
      (rl.acquire now).2 = 0 ∧ (rl.acquire now).1.last = now := by
  constructor
  · rw [RateLimiter.make, if_neg (ne_of_lt h)]
  · intro rl hint now hnow
    have hne : rl.last + rl.interval - now ≤ 0 := by
      have : rl.interval < 0 := by
        rw [hint]
        exact one_div_neg.mpr h
      linarith
    have hsleep : (if 0 < rl.last + rl.interval - now then rl.last + rl.interval - now else 0) = 0 := by
      rw [if_neg (by linarith)]
    constructor
    · rw [RateLimiter.acquire]
      exact hsleep
    · rw [RateLimiter.acquire]
      simp only [hsleep]
      simp

/-- Witness for the amended C8 at `rps = -1`, `now = 0`. -/
theorem rateLimiter_negative_rps_no_wait_witness :
    RateLimiter.make (-1) = some ⟨1 / (-1), 0⟩ ∧
    ((⟨1 / (-1), 0⟩ : RateLimiter).acquire 0).2 = 0 ∧
    ((⟨1 / (-1), 0⟩ : RateLimiter).acquire 0).1.last = 0 := by
  have h := rateLimiter_negative_rps_no_wait (-1) (by norm_num)
  exact ⟨h.1, (h.2 ⟨1 / (-1), 0⟩ rfl 0 (le_refl 0)).1, (h.2 ⟨1 / (-1), 0⟩ rfl 0 (le_refl 0)).2⟩

/-! ### Claim C1: checkpoint behaviour after a pagination abort -/

theorem runScrapeState_completed (fetchFor : String → Nat → DiscoverResult)
    (completed : List PyVal) (cp : JsonDict) (store : JSONStore)
    (state : String) (fuel : Nat)
    (h : PyVal.str ("AI|" ++ state) ∈ completed) :
    runScrapeState fetchFor completed cp store state fuel = some (cp, store, 0) := by
  rw [runScrapeState, if_pos h]

theorem runScrapeState_not_completed (fetchFor : String → Nat → DiscoverResult)
    (completed : List PyVal) (cp : JsonDict) (store : JSONStore)
    (state : String) (fuel : Nat) (c : List PyVal)
    (hnot : PyVal.str ("AI|" ++ state) ∉ completed)
    (hc : get_completed_terms cp = some c) :
    runScrapeState fetchFor completed cp store state fuel =
      some (dictSet cp "completed_terms"
          (.list (PyValList.ofList (setInsert (.str ("AI|" ++ state)) c))),
        (scrape_pages (fetchFor state) store 200 fuel).store,
        (scrape_pages (fetchFor state) store 200 fuel).calls) := by
  rw [runScrapeState, if_neg hnot, mark_term_done_eq _ hc]
  rfl

/-- C1 (counterexample): a discovery run in which every page fetch for key
"AI|live" fails — so the key hits 3 consecutive failures and pagination
aborts after exactly 3 `discover` calls — nevertheless ends with "AI|live"
in the checkpoint's completed set: `run_scrape` calls `mark_term_done`
unconditionally after `_scrape_pages` returns. -/
theorem run_scrape_failed_key_marked_done_cex :
    (∀ state i, allFailFetch state i = DiscoverResult.fail) ∧
    ∃ r : RunResult, run_scrape allFailFetch [] (JSONStore.init []) 10 = some r ∧
      r.liveCalls = 3 ∧
      ∃ c, get_completed_terms r.checkpoint = some c ∧ PyVal.str "AI|live" ∈ c := by
  refine ⟨fun _ _ => rfl,
    ⟨[("completed_terms",
        PyVal.list (PyValList.ofList [PyVal.str "AI|live", PyVal.str "AI|late"]))],
      JSONStore.init [], 3, 3⟩,
    rfl, rfl, [PyVal.str "AI|live", PyVal.str "AI|late"], rfl, by decide⟩

/-- C1 (amended): when a search key experiences 3 consecutive page-fetch
failures, pagination for that key is aborted, but the key IS still added to
the checkpoint's completed set — `run_scrape` marks every key it processes
as done, whatever `_scrape_pages` did — so a subsequent run skips the key
instead of retrying it.  Stated generally: after any `run_scrape` whose
initial checkpoint parses, both search keys are in the completed set. -/
theorem run_scrape_marks_keys_done (fetchFor : String → Nat → DiscoverResult)
    (cp0 : JsonDict) (store0 : JSONStore) (fuel : Nat) (c0 : List PyVal)
    (h : get_completed_terms cp0 = some c0) :
    ∃ (r : RunResult) (c : List PyVal),
      run_scrape fetchFor cp0 store0 fuel = some r ∧
      get_completed_terms r.checkpoint = some c ∧
      PyVal.str "AI|live" ∈ c ∧ PyVal.str "AI|late" ∈ c := by
  have hkl : "AI|" ++ "live" = "AI|live" := rfl
  have hkt : "AI|" ++ "late" = "AI|late" := rfl
  obtain ⟨cp1, s1, n1, hlive, c1, hc1, hlivemem, hsub⟩ :
      ∃ cp1 s1 n1, runScrapeState fetchFor c0 cp0 store0 "live" fuel = some (cp1, s1, n1) ∧
        ∃ c1, get_completed_terms cp1 = some c1 ∧
          PyVal.str ("AI|" ++ "live") ∈ c1 ∧ ∀ x ∈ c0, x ∈ c1 := by
    by_cases hl : PyVal.str ("AI|" ++ "live") ∈ c0
    · exact ⟨cp0, store0, 0, runScrapeState_completed fetchFor c0 cp0 store0 "live" fuel hl,
        c0, h, hl, fun x hx => hx⟩
    · refine ⟨_, _, _,
        runScrapeState_not_completed fetchFor c0 cp0 store0 "live" fuel c0 hl h,
        setInsert (.str ("AI|" ++ "live")) c0, ?_, mem_setInsert_self _ _,
        fun x hx => mem_setInsert_of_mem _ hx⟩
      exact get_completed_terms_dictSet cp0 _
        (setInsert_nodup (get_completed_terms_nodup h))
  obtain ⟨cp2, s2, n2, hlate, c2, hc2, hlatemem, hsub2⟩ :
      ∃ cp2 s2 n2, runScrapeState fetchFor c0 cp1 s1 "late" fuel = some (cp2, s2, n2) ∧
        ∃ c2, get_completed_terms cp2 = some c2 ∧
          PyVal.str ("AI|" ++ "late") ∈ c2 ∧ ∀ x ∈ c1, x ∈ c2 := by
    by_cases hl2 : PyVal.str ("AI|" ++ "late") ∈ c0
    · exact ⟨cp1, s1, 0, runScrapeState_completed fetchFor c0 cp1 s1 "late" fuel hl2,
        c1, hc1, hsub _ hl2, fun x hx => hx⟩
    · refine ⟨_, _, _,
        runScrapeState_not_completed fetchFor c0 cp1 s1 "late" fuel c1 hl2 hc1,
        setInsert (.str ("AI|" ++ "late")) c1,
        get_completed_terms_dictSet cp1 _
          (setInsert_nodup (get_completed_terms_nodup hc1)),
        mem_setInsert_self _ _, fun x hx => mem_setInsert_of_mem _ hx⟩
  refine ⟨⟨cp2, s2, n1, n2⟩, c2, ?_, hc2, ?_, hkt ▸ hlatemem⟩
  · simp only [run_scrape, h, hlive, hlate]
  · exact hkl ▸ hsub2 _ hlivemem

/-- Witness for the amended C1: the all-failing source with an empty
initial checkpoint. -/
theorem run_scrape_marks_keys_done_witness :
    ∃ (r : RunResult) (c : List PyVal),
      run_scrape allFailFetch [] (JSONStore.init []) 10 = some r ∧
      get_completed_terms r.checkpoint = some c ∧
      PyVal.str "AI|live" ∈ c ∧ PyVal.str "AI|late" ∈ c :=
  run_scrape_marks_keys_done allFailFetch [] (JSONStore.init []) 10 [] rfl
